import Mathlib

/-!
Shallow embedding of the JobSystem repository (`JobSystem.h`, `JobSystem.cpp`):
a fixed-capacity thread-safe ring buffer of jobs, a worker pool draining it, and
label counters (`currentLabel` / `finishedLabel`) tracking submission/completion.

The ring buffer operations `push_back` / `pop_front` are embedded as pure state
transformers (the mutex only serializes calls, so any concurrent history is a
sequential interleaving of these transformers).  `uint32_t` arithmetic in
`Dispatch` is embedded over `Nat` with explicit `% U32` reductions exactly where
the C++ expressions are evaluated at that width.  The label counters are
`uint64_t` monotone counters; their wraparound is unreachable for any realistic
number of submissions and is not modelled.
-/

set_option maxHeartbeats 1000000
set_option maxRecDepth 100000

/-- `2^32`, the modulus of `uint32_t` arithmetic. -/
def U32 : Nat := 4294967296

/-- A dispatched job receives this as its function argument (`JobDispatchArgs`
in `JobSystem.h`); both fields are `uint32_t`. -/
structure JobDispatchArgs where
  jobIndex : Nat
  groupIndex : Nat
  deriving DecidableEq, Repr

/-- State of `ThreadSafeRingBuffer<T, capacity>`: the backing array `T data[capacity]`
(as a list of fixed length `capacity`), `head` (next write position) and `tail`
(next read position).  Both indices start at 0. -/
structure RingBuffer (T : Type) where
  data : List T
  head : Nat
  tail : Nat
  deriving DecidableEq, Repr

variable {T : Type}

/-- `ThreadSafeRingBuffer::push_back`: computes `next = (head + 1) % capacity`;
if `next != tail` it writes the item at `head`, advances `head` and returns
`true`, otherwise it returns `false` leaving the state untouched. -/
def push_back (capacity : Nat) (buf : RingBuffer T) (item : T) : Bool × RingBuffer T :=
  let next := (buf.head + 1) % capacity
  if next ≠ buf.tail then
    (true, { data := buf.data.set buf.head item, head := next, tail := buf.tail })
  else
    (false, buf)

/-- `ThreadSafeRingBuffer::pop_front`: if `tail != head` it reads the item at
`tail`, advances `tail` and returns it, otherwise it returns nothing leaving the
state untouched. -/
def pop_front [Inhabited T] (capacity : Nat) (buf : RingBuffer T) : Option T × RingBuffer T :=
  if buf.tail ≠ buf.head then
    (some (buf.data.getD buf.tail default),
      { data := buf.data, head := buf.head, tail := (buf.tail + 1) % capacity })
  else
    (none, buf)

/-- The freshly constructed ring buffer: default-initialized storage, `head = tail = 0`. -/
def initBuffer [Inhabited T] (capacity : Nat) : RingBuffer T :=
  { data := List.replicate capacity default, head := 0, tail := 0 }

/-- Structural invariant of the ring buffer state: indices in range and the
backing storage of the declared fixed length. -/
def Qinv (capacity : Nat) (buf : RingBuffer T) : Prop :=
  buf.head < capacity ∧ buf.tail < capacity ∧ buf.data.length = capacity

instance (capacity : Nat) (buf : RingBuffer T) : Decidable (Qinv capacity buf) := by
  unfold Qinv; infer_instance

/-- Abstraction function: the sequence of resident jobs, oldest first.  The
resident count is `(capacity + head - tail) % capacity` and slot `i` of the
logical queue lives at physical index `(tail + i) % capacity`. -/
def absQueue [Inhabited T] (capacity : Nat) (buf : RingBuffer T) : List T :=
  (List.range ((capacity + buf.head - buf.tail) % capacity)).map
    (fun i => buf.data.getD ((buf.tail + i) % capacity) default)

/-- One queue operation: a `push_back` of a given item, or a `pop_front`. -/
inductive QOp (T : Type) where
  | push (item : T) : QOp T
  | pop : QOp T

/-- Run one queue operation on a buffer, also counting successful pushes and
successful pops (second and third components). -/
def stepCount [Inhabited T] (capacity : Nat) (st : RingBuffer T × Nat × Nat) (op : QOp T) :
    RingBuffer T × Nat × Nat :=
  match op with
  | QOp.push item =>
      let r := push_back capacity st.1 item
      (r.2, st.2.1 + (if r.1 then 1 else 0), st.2.2)
  | QOp.pop =>
      let r := pop_front capacity st.1
      (r.2, st.2.1, st.2.2 + (if r.1.isSome then 1 else 0))

/-- Run a sequence of queue operations from the initial empty buffer, counting
successful pushes and pops. -/
def runCounts [Inhabited T] (capacity : Nat) (ops : List (QOp T)) : RingBuffer T × Nat × Nat :=
  ops.foldl (stepCount capacity) (initBuffer capacity, 0, 0)

/-- The group-count computation in `JobSystem::Dispatch`:
`const uint32_t groupCount = (jobCount + groupSize - 1) / groupSize;`
evaluated in `uint32_t` arithmetic (the sum wraps modulo `2^32`). -/
def dispatchGroupCount (jobCount groupSize : Nat) : Nat :=
  ((jobCount + groupSize - 1) % U32) / groupSize

/-- The sequence of `JobDispatchArgs` with which the group closure built for
`groupIndex` invokes the user's ranged function, in call order.  Mirrors the
body of the `jobGroup` lambda in `JobSystem::Dispatch`:
`groupJobOffset = groupIndex * groupSize` and
`groupJobEnd = min(groupJobOffset + groupSize, jobCount)` in `uint32_t`
arithmetic, then a loop `for (i = groupJobOffset; i < groupJobEnd; ++i)`. -/
def groupTrace (jobCount groupSize groupIndex : Nat) : List JobDispatchArgs :=
  let groupJobOffset := (groupIndex * groupSize) % U32
  let groupJobEnd := min ((groupJobOffset + groupSize) % U32) jobCount
  (List.range' groupJobOffset (groupJobEnd - groupJobOffset)).map
    (fun i => { jobIndex := i, groupIndex := groupIndex })

/-- The list of per-group invocation traces produced by
`JobSystem::Dispatch(jobCount, groupSize, job)`: nothing when either argument is
zero, otherwise one `groupTrace` per `groupIndex` in `[0, groupCount)`, in the
order the group jobs are built and enqueued. -/
def dispatchTrace (jobCount groupSize : Nat) : List (List JobDispatchArgs) :=
  if jobCount = 0 ∨ groupSize = 0 then []
  else (List.range (dispatchGroupCount jobCount groupSize)).map (groupTrace jobCount groupSize)

/-- Abstract state of the job system: the two label counters together with the
jobs in flight.  `currentLabel` and `finishedLabel` mirror the globals of the
`JobSystem` namespace; `toEnqueue` counts jobs whose submission has already
incremented `currentLabel` but whose `push_back` retry loop has not yet
succeeded; `queued` counts closures resident in `jobPool`; `running` counts
closures popped by a worker and still executing. -/
structure Sys where
  currentLabel : Nat
  finishedLabel : Nat
  toEnqueue : Nat
  queued : Nat
  running : Nat
  deriving DecidableEq, Repr

/-- The state at process start: both labels zero, no job anywhere. -/
def initState : Sys :=
  { currentLabel := 0, finishedLabel := 0, toEnqueue := 0, queued := 0, running := 0 }

/-- Counter effect of `JobSystem::Execute`: `currentLabel += 1`, and one new job
enters the push retry loop. -/
def sysExecute (s : Sys) : Sys :=
  { s with currentLabel := s.currentLabel + 1, toEnqueue := s.toEnqueue + 1 }

/-- Counter effect of `JobSystem::Dispatch`: a no-op when `jobCount == 0` or
`groupSize == 0`; otherwise `currentLabel += groupCount` and `groupCount` group
jobs enter the push retry loop. -/
def sysDispatch (jobCount groupSize : Nat) (s : Sys) : Sys :=
  if jobCount = 0 ∨ groupSize = 0 then s
  else
    { s with
      currentLabel := s.currentLabel + dispatchGroupCount jobCount groupSize,
      toEnqueue := s.toEnqueue + dispatchGroupCount jobCount groupSize }

/-- `JobSystem::IsBusy`: `return finishedLabel.load() < currentLabel;`. -/
def IsBusy (s : Sys) : Bool :=
  decide (s.finishedLabel < s.currentLabel)

/-- `IsBusy` as an operation on the system state: it returns the comparison
result and leaves the state exactly as it was (a pure read). -/
def IsBusyOp (s : Sys) : Bool × Sys :=
  (IsBusy s, s)

/-- Counter effect of `JobSystem::Initialize`: `finishedLabel.store(0)`;
`currentLabel` is not touched (thread creation has no counter state). -/
def sysInit (s : Sys) : Sys :=
  { s with finishedLabel := 0 }

/-- One atomic step of any thread of the system: a submission via `Execute` or
`Dispatch` (label increment), a successful `push_back` of a pending job, a
worker's successful `pop_front`, or a worker finishing a job and performing
`finishedLabel.fetch_add(1)`. -/
inductive SysStep : Sys → Sys → Prop where
  | execute (s : Sys) : SysStep s (sysExecute s)
  | dispatch (jobCount groupSize : Nat) (s : Sys) : SysStep s (sysDispatch jobCount groupSize s)
  | enqueue (s : Sys) (h : s.toEnqueue ≠ 0) :
      SysStep s { s with toEnqueue := s.toEnqueue - 1, queued := s.queued + 1 }
  | popJob (s : Sys) (h : s.queued ≠ 0) :
      SysStep s { s with queued := s.queued - 1, running := s.running + 1 }
  | finish (s : Sys) (h : s.running ≠ 0) :
      SysStep s { s with running := s.running - 1, finishedLabel := s.finishedLabel + 1 }

/-- A system state reachable from process start by any interleaving of steps. -/
def Reachable (s : Sys) : Prop :=
  Relation.ReflTransGen SysStep initState s

/-- One execution of `JobSystem::Wait`'s loop `while (IsBusy()) { poll(); }`,
interleaved with arbitrary steps by the other threads: the loop returns only
after observing `IsBusy() == false`. -/
inductive WaitFrom : Sys → Sys → Prop where
  | done (s : Sys) : IsBusy s = false → WaitFrom s s
  | spin (s s' s'' : Sys) : IsBusy s = true → Relation.ReflTransGen SysStep s s' →
      WaitFrom s' s'' → WaitFrom s s''

/-- The bookkeeping invariant tying the labels to the jobs in flight: every
submitted unit is either awaiting enqueue, queued, running, or finished. -/
def SysInv (s : Sys) : Prop :=
  s.currentLabel = s.finishedLabel + s.toEnqueue + s.queued + s.running

theorem sysStep_inv {s s' : Sys} (hstep : SysStep s s') (hinv : SysInv s) : SysInv s' := by
  cases hstep with
  | execute s => unfold SysInv sysExecute at *; simp at *; omega
  | dispatch jobCount groupSize s =>
      unfold SysInv sysDispatch at *
      by_cases h : jobCount = 0 ∨ groupSize = 0
      · simpa [h] using hinv
      · simp [h] at *; omega
  | enqueue s h => unfold SysInv at *; simp at *; omega
  | popJob s h => unfold SysInv at *; simp at *; omega
  | finish s h => unfold SysInv at *; simp at *; omega

theorem reachable_inv {s : Sys} (h : Reachable s) : SysInv s := by
  unfold Reachable at h
  induction h with
  | refl => unfold SysInv initState; rfl
  | tail _ hstep ih => exact sysStep_inv hstep ih

theorem sysStep_mono {s s' : Sys} (hstep : SysStep s s') :
    s.currentLabel ≤ s'.currentLabel := by
  cases hstep with
  | execute s => simp [sysExecute]
  | dispatch jobCount groupSize s =>
      unfold sysDispatch
      by_cases h : jobCount = 0 ∨ groupSize = 0
      · simp [h]
      · simp [h]
  | enqueue s h => simp
  | popJob s h => simp
  | finish s h => simp

theorem sysSteps_mono {s s' : Sys} (h : Relation.ReflTransGen SysStep s s') :
    s.currentLabel ≤ s'.currentLabel := by
  induction h with
  | refl => exact Nat.le_refl _
  | tail _ hstep ih => exact Nat.le_trans ih (sysStep_mono hstep)

/-- C6: `IsBusy()` returns `true` iff the completed counter (`finishedLabel`)
is strictly below the submitted counter (`currentLabel`), and it is a pure
read: the state after the call is the state before it. -/
theorem IsBusy_iff (s : Sys) :
    ((IsBusyOp s).1 = true ↔ s.finishedLabel < s.currentLabel) ∧ (IsBusyOp s).2 = s := by
  constructor
  · simp [IsBusyOp, IsBusy]
  · rfl

/-- C9: `Dispatch(0, g, f)` and `Dispatch(j, 0, f)` are no-ops: the counters
and the pending-job bookkeeping are unchanged and the invocation trace is
empty, so `f` is never invoked and nothing is enqueued. -/
theorem Dispatch_zero_noop (jobCount groupSize : Nat) (s : Sys) :
    sysDispatch 0 groupSize s = s ∧ sysDispatch jobCount 0 s = s ∧
    dispatchTrace 0 groupSize = [] ∧ dispatchTrace jobCount 0 = [] := by
  refine ⟨?_, ?_, ?_, ?_⟩ <;> simp [sysDispatch, dispatchTrace]

/-- C7: in every reachable state, `finishedLabel ≤ currentLabel`, and the two
labels are equal exactly when no submitted job is still awaiting enqueue,
queued, or running (the system is idle). -/
theorem labels_invariant (s : Sys) (h : Reachable s) :
    s.finishedLabel ≤ s.currentLabel ∧
    (s.finishedLabel = s.currentLabel ↔ s.toEnqueue = 0 ∧ s.queued = 0 ∧ s.running = 0) := by
  have hi := reachable_inv h
  unfold SysInv at hi
  omega

/-- Witness for C7 at the initial state. -/
theorem labels_invariant_witness :
    initState.finishedLabel ≤ initState.currentLabel ∧
    (initState.finishedLabel = initState.currentLabel ↔
      initState.toEnqueue = 0 ∧ initState.queued = 0 ∧ initState.running = 0) :=
  labels_invariant initState Relation.ReflTransGen.refl

/-- C8: before any submission `IsBusy()` is `false`, and whenever `Wait()`
returns, `IsBusy()` at the return point is `false`; in particular the
completed counter then exceeds the submitted counter as of the call's start. -/
theorem Wait_postcondition :
    IsBusy initState = false ∧
    ∀ s s' : Sys, WaitFrom s s' →
      IsBusy s' = false ∧ s.currentLabel ≤ s'.finishedLabel := by
  refine ⟨rfl, ?_⟩
  intro s s' hwait
  induction hwait with
  | done s hbusy =>
      refine ⟨hbusy, ?_⟩
      simp [IsBusy] at hbusy
      omega
  | spin s t t' hbusy hsteps _ ih =>
      refine ⟨ih.1, Nat.le_trans (sysSteps_mono hsteps) ?_⟩
      exact ih.2

/-- Witness for C8: the trivial wait at the initial (idle) state. -/
theorem Wait_postcondition_witness :
    IsBusy initState = false ∧ initState.currentLabel ≤ initState.finishedLabel :=
  ⟨Wait_postcondition.1,
    (Wait_postcondition.2 initState initState (WaitFrom.done initState rfl)).2⟩

/-- C10: `Initialize()` stores 0 into `finishedLabel` but leaves `currentLabel`
unchanged; hence re-initializing after `n > 0` jobs have completed (labels
equal and positive) makes `IsBusy()` report `true` with no new work. -/
theorem sysInit_resets_finishedLabel (s : Sys) :
    (sysInit s).finishedLabel = 0 ∧ (sysInit s).currentLabel = s.currentLabel ∧
    (s.finishedLabel = s.currentLabel → 0 < s.currentLabel → IsBusy (sysInit s) = true) := by
  refine ⟨rfl, rfl, ?_⟩
  intro h1 h2
  simp [sysInit, IsBusy]
  omega

/-- Witness for C10: a state with one submitted and completed job. -/
theorem sysInit_resets_finishedLabel_witness :
    (sysInit { currentLabel := 1, finishedLabel := 1, toEnqueue := 0, queued := 0, running := 0 }).finishedLabel = 0 ∧
    IsBusy (sysInit { currentLabel := 1, finishedLabel := 1, toEnqueue := 0, queued := 0, running := 0 }) = true :=
  ⟨(sysInit_resets_finishedLabel _).1,
    (sysInit_resets_finishedLabel _).2.2 rfl (by decide)⟩

theorem getD_set_ne [Inhabited T] (l : List T) (m n : Nat) (a : T) (hne : m ≠ n) :
    (l.set m a).getD n default = l.getD n default := by
  rw [List.getD_eq_getElem?_getD, List.getD_eq_getElem?_getD, List.getElem?_set_ne hne]

theorem getD_set_self [Inhabited T] (l : List T) (m : Nat) (a : T) (hm : m < l.length) :
    (l.set m a).getD m default = a := by
  rw [List.getD_eq_getElem?_getD, List.getElem?_set_eq_of_lt a hm]
  rfl

theorem absQueue_push [Inhabited T] (buf : RingBuffer T) (item : T)
    (h : Qinv 256 buf) (hs : (push_back 256 buf item).1 = true) :
    absQueue 256 (push_back 256 buf item).2 = absQueue 256 buf ++ [item] ∧
    Qinv 256 (push_back 256 buf item).2 := by
  obtain ⟨hh, ht, hl⟩ := h
  by_cases hfull : (buf.head + 1) % 256 = buf.tail
  · simp [push_back, hfull] at hs
  · have hres : push_back 256 buf item =
        (true, { data := buf.data.set buf.head item,
                 head := (buf.head + 1) % 256, tail := buf.tail }) := by
      simp [push_back, hfull]
    rw [hres]
    refine ⟨?_, Nat.mod_lt _ (by norm_num), ht, by simp [hl]⟩
    unfold absQueue
    have hsz : (256 + (buf.head + 1) % 256 - buf.tail) % 256 =
        (256 + buf.head - buf.tail) % 256 + 1 := by omega
    rw [hsz, List.range_succ, List.map_append]
    congr 1
    · apply List.map_congr_left
      intro i hi
      rw [List.mem_range] at hi
      have hne : buf.head ≠ (buf.tail + i) % 256 := by omega
      exact getD_set_ne buf.data buf.head ((buf.tail + i) % 256) item hne
    · have hpos : (buf.tail + (256 + buf.head - buf.tail) % 256) % 256 = buf.head := by omega
      simp only [List.map_cons, List.map_nil, hpos]
      rw [getD_set_self buf.data buf.head item (by omega)]

theorem absQueue_pop [Inhabited T] (buf : RingBuffer T)
    (h : Qinv 256 buf) (hne : buf.tail ≠ buf.head) :
    (pop_front 256 buf).1 = some (buf.data.getD buf.tail default) ∧
    absQueue 256 buf = buf.data.getD buf.tail default :: absQueue 256 (pop_front 256 buf).2 ∧
    Qinv 256 (pop_front 256 buf).2 := by
  obtain ⟨hh, ht, hl⟩ := h
  have hres : pop_front 256 buf =
      (some (buf.data.getD buf.tail default),
       { data := buf.data, head := buf.head, tail := (buf.tail + 1) % 256 }) := by
    simp [pop_front, hne]
  rw [hres]
  refine ⟨rfl, ?_, hh, Nat.mod_lt _ (by norm_num), hl⟩
  unfold absQueue
  have hsz : (256 + buf.head - buf.tail) % 256 =
      (256 + buf.head - (buf.tail + 1) % 256) % 256 + 1 := by omega
  rw [hsz, List.range_succ_eq_map]
  simp only [List.map_cons, List.map_map]
  congr 1
  · have h0 : (buf.tail + 0) % 256 = buf.tail := by omega
    rw [h0]
  · apply List.map_congr_left
    intro i hi
    have hstep : (buf.tail + Nat.succ i) % 256 = ((buf.tail + 1) % 256 + i) % 256 := by omega
    simp only [Function.comp_apply, hstep]

/-- C2: `push_back` succeeds and inserts (appends to the logical queue) exactly
when the buffer is not full, i.e. `(head + 1) % 256 != tail` at call time; on
failure the job is not enqueued and the whole state is unchanged. -/
theorem push_back_contract [Inhabited T] (buf : RingBuffer T) (item : T) (h : Qinv 256 buf) :
    ((push_back 256 buf item).1 = true ↔ (buf.head + 1) % 256 ≠ buf.tail) ∧
    ((push_back 256 buf item).1 = false → (push_back 256 buf item).2 = buf) ∧
    ((push_back 256 buf item).1 = true →
      absQueue 256 (push_back 256 buf item).2 = absQueue 256 buf ++ [item]) := by
  refine ⟨?_, ?_, fun hs => (absQueue_push buf item h hs).1⟩
  · by_cases hfull : (buf.head + 1) % 256 = buf.tail
    · simp [push_back, hfull]
    · simp [push_back, hfull]
  · intro hf
    by_cases hfull : (buf.head + 1) % 256 = buf.tail
    · simp [push_back, hfull]
    · simp [push_back, hfull] at hf

/-- Witness for C2: pushing into the freshly constructed (empty) buffer. -/
theorem push_back_contract_witness :
    Qinv 256 (initBuffer 256 : RingBuffer Nat) ∧
    ((push_back 256 (initBuffer 256 : RingBuffer Nat) 7).1 = true ↔
      ((initBuffer 256 : RingBuffer Nat).head + 1) % 256 ≠ (initBuffer 256 : RingBuffer Nat).tail) :=
  ⟨by decide, (push_back_contract (initBuffer 256) 7 (by decide)).1⟩

/-- C4: the queue is FIFO.  The logical queue (`absQueue`, oldest first) is
empty exactly when `head == tail`; popping then signals empty and leaves the
state unchanged; popping a non-empty queue removes and returns the oldest
resident job; and a successful push appends at the young end, so successive
successful pops return jobs in exactly the order they were pushed. -/
theorem pop_front_fifo [Inhabited T] (buf : RingBuffer T) (h : Qinv 256 buf) :
    (absQueue 256 buf = [] ↔ buf.head = buf.tail) ∧
    (buf.tail = buf.head → pop_front 256 buf = (none, buf)) ∧
    (∀ x rest, absQueue 256 buf = x :: rest →
      (pop_front 256 buf).1 = some x ∧ absQueue 256 (pop_front 256 buf).2 = rest) ∧
    (∀ item, (push_back 256 buf item).1 = true →
      absQueue 256 (push_back 256 buf item).2 = absQueue 256 buf ++ [item]) := by
  obtain ⟨hh, ht, hl⟩ := h
  refine ⟨?_, ?_, ?_, fun item hs => (absQueue_push buf item ⟨hh, ht, hl⟩ hs).1⟩
  · unfold absQueue
    rw [List.map_eq_nil_iff, List.range_eq_nil]
    omega
  · intro he
    simp [pop_front, he]
  · intro x rest hcons
    have hne : buf.tail ≠ buf.head := by
      intro he
      have hz : (256 + buf.head - buf.tail) % 256 = 0 := by omega
      unfold absQueue at hcons
      rw [hz] at hcons
      simp at hcons
    obtain ⟨h1, h2, _⟩ := absQueue_pop buf ⟨hh, ht, hl⟩ hne
    rw [hcons] at h2
    injection h2 with hx hrest
    exact ⟨by rw [h1, hx], hrest.symm⟩

/-- Witness for C4: a buffer holding the two jobs `5` then `9`. -/
theorem pop_front_fifo_witness :
    Qinv 256 ({ data := (List.replicate 256 0).set 0 5 |>.set 1 9, head := 2, tail := 0 } : RingBuffer Nat) ∧
    absQueue 256 ({ data := (List.replicate 256 0).set 0 5 |>.set 1 9, head := 2, tail := 0 } : RingBuffer Nat) = [5, 9] ∧
    (pop_front 256 ({ data := (List.replicate 256 0).set 0 5 |>.set 1 9, head := 2, tail := 0 } : RingBuffer Nat)).1 = some 5 ∧
    absQueue 256 (pop_front 256 ({ data := (List.replicate 256 0).set 0 5 |>.set 1 9, head := 2, tail := 0 } : RingBuffer Nat)).2 = [9] :=
  ⟨by decide, by decide,
    ((pop_front_fifo { data := (List.replicate 256 0).set 0 5 |>.set 1 9, head := 2, tail := 0 }
        (by decide)).2.2.1 5 [9] (by decide)).1,
    ((pop_front_fifo { data := (List.replicate 256 0).set 0 5 |>.set 1 9, head := 2, tail := 0 }
        (by decide)).2.2.1 5 [9] (by decide)).2⟩

/-- Invariant carried through a counted run: structural buffer invariant, pops
never exceed pushes, and the resident count (successful pushes minus successful
pops) equals the head/tail distance `(256 + head - tail) % 256`. -/
def CInv (st : RingBuffer T × Nat × Nat) : Prop :=
  Qinv 256 st.1 ∧ st.2.2 ≤ st.2.1 ∧
  st.2.1 - st.2.2 = (256 + st.1.head - st.1.tail) % 256

theorem stepCount_cinv [Inhabited T] (st : RingBuffer T × Nat × Nat) (op : QOp T)
    (h : CInv st) : CInv (stepCount 256 st op) := by
  obtain ⟨⟨hh, ht, hl⟩, hle, hcount⟩ := h
  cases op with
  | push item =>
      by_cases hfull : (st.1.head + 1) % 256 = st.1.tail
      · simp only [stepCount, push_back, hfull]
        simp only [CInv, Qinv]
        simp
        exact ⟨⟨hh, ht, hl⟩, by omega, by omega⟩
      · simp only [stepCount, push_back]
        simp only [CInv, Qinv]
        simp [hfull]
        refine ⟨⟨Nat.mod_lt _ (by norm_num), ht, hl⟩, by omega, by omega⟩
  | pop =>
      by_cases hemp : st.1.tail = st.1.head
      · simp only [stepCount, pop_front, hemp]
        simp only [CInv, Qinv]
        simp
        exact ⟨⟨hh, ht, hl⟩, by omega, by omega⟩
      · simp only [stepCount, pop_front]
        simp only [CInv, Qinv]
        simp [hemp]
        refine ⟨⟨hh, Nat.mod_lt _ (by norm_num), hl⟩, by omega, by omega⟩

theorem foldl_cinv [Inhabited T] (ops : List (QOp T)) :
    ∀ st : RingBuffer T × Nat × Nat, CInv st → CInv (ops.foldl (stepCount 256) st) := by
  induction ops with
  | nil => intro st h; simpa using h
  | cons op ops ih =>
      intro st h
      rw [List.foldl_cons]
      exact ih _ (stepCount_cinv st op h)

theorem runCounts_cinv [Inhabited T] (ops : List (QOp T)) : CInv (runCounts 256 ops) := by
  apply foldl_cinv
  refine ⟨⟨by simp [initBuffer], by simp [initBuffer], by simp [initBuffer]⟩,
    Nat.le_refl 0, by simp [initBuffer]⟩

/-- C3: along every sequence of `push_back` / `pop_front` operations from the
initial empty queue, the number of resident jobs (successful pushes minus
successful pops) never exceeds 255 = capacity - 1; the queue is empty iff
`head == tail`, full iff `(head + 1) % 256 == tail`, and `push_back` fails
exactly at that full boundary. -/
theorem ring_buffer_bound [Inhabited T] (ops : List (QOp T)) (item : T) :
    (runCounts 256 ops).2.2 ≤ (runCounts 256 ops).2.1 ∧
    (runCounts 256 ops).2.1 - (runCounts 256 ops).2.2 ≤ 255 ∧
    ((runCounts 256 ops).2.1 - (runCounts 256 ops).2.2 = 0 ↔
      (runCounts 256 ops).1.head = (runCounts 256 ops).1.tail) ∧
    ((runCounts 256 ops).2.1 - (runCounts 256 ops).2.2 = 255 ↔
      ((runCounts 256 ops).1.head + 1) % 256 = (runCounts 256 ops).1.tail) ∧
    ((push_back 256 (runCounts 256 ops).1 item).1 = false ↔
      ((runCounts 256 ops).1.head + 1) % 256 = (runCounts 256 ops).1.tail) := by
  obtain ⟨⟨hh, ht, hl⟩, hle, hcount⟩ := runCounts_cinv (T := T) ops
  refine ⟨hle, by omega, by omega, by omega, ?_⟩
  by_cases hfull : ((runCounts 256 ops).1.head + 1) % 256 = (runCounts 256 ops).1.tail
  · simp [push_back, hfull]
  · simp [push_back, hfull]

theorem dispatchGroupCount_eq (j g : Nat) (hj : 0 < j) (hg : 0 < g) (hov : j + g ≤ U32) :
    dispatchGroupCount j g = (j - 1) / g + 1 := by
  unfold dispatchGroupCount
  have hU : U32 = 4294967296 := rfl
  have h1 : (j + g - 1) % U32 = j + g - 1 := Nat.mod_eq_of_lt (by omega)
  rw [h1]
  have h2 : j + g - 1 = (j - 1) + g := by omega
  rw [h2, Nat.add_div_right _ hg]

theorem dispatchGroupCount_bounds (j g : Nat) (hj : 0 < j) (hg : 0 < g) (hov : j + g ≤ U32) :
    j ≤ dispatchGroupCount j g * g ∧ dispatchGroupCount j g * g < j + g := by
  rw [dispatchGroupCount_eq j g hj hg hov]
  have hd := Nat.div_add_mod (j - 1) g
  have hmod := Nat.mod_lt (j - 1) hg
  have hc : ((j - 1) / g + 1) * g = g * ((j - 1) / g) + g := by ring
  omega

theorem dispatch_join_aux (j g : Nat) (hj : 0 < j) (hg : 0 < g) (hov : j + g ≤ U32) :
    ∀ m, m ≤ (j - 1) / g + 1 →
      ((List.range m).map (groupTrace j g)).flatten
        = (List.range (min (m * g) j)).map
            (fun i => { jobIndex := i, groupIndex := i / g }) := by
  intro m
  induction m with
  | zero => simp
  | succ m ih =>
      intro hm
      have hU : U32 = 4294967296 := rfl
      have hm' : m ≤ (j - 1) / g := by omega
      have hd := Nat.div_add_mod (j - 1) g
      have hmod := Nat.mod_lt (j - 1) hg
      have hc : ((j - 1) / g) * g = g * ((j - 1) / g) := Nat.mul_comm _ _
      have hmul : m * g ≤ ((j - 1) / g) * g := Nat.mul_le_mul_right g hm'
      have hmj : m * g < j := by omega
      have hoffU : (m * g) % U32 = m * g := Nat.mod_eq_of_lt (by omega)
      have hendU : (m * g + g) % U32 = m * g + g := Nat.mod_eq_of_lt (by omega)
      rw [List.range_succ, List.map_append, List.flatten_append, ih (by omega)]
      have hgt : groupTrace j g m =
          (List.range' (m * g) (min (m * g + g) j - m * g)).map
            (fun i => { jobIndex := i, groupIndex := m }) := by
        simp only [groupTrace]
        rw [hoffU, hendU]
      rw [List.map_cons, List.map_nil, List.flatten_cons, List.flatten_nil, List.append_nil, hgt]
      have hmin1 : min (m * g) j = m * g := Nat.min_eq_left (Nat.le_of_lt hmj)
      have hms : Nat.succ m * g = m * g + g := Nat.succ_mul m g
      have hmin2 : min (Nat.succ m * g) j = m * g + (min (m * g + g) j - m * g) := by
        rw [hms]
        omega
      rw [hmin1, hmin2, List.range_add, List.map_append]
      congr 1
      rw [List.range'_eq_map_range, List.map_map, List.map_map]
      apply List.map_congr_left
      intro x hx
      rw [List.mem_range] at hx
      have hxg : x < g := by omega
      have hdiv : (m * g + x) / g = m :=
        Nat.div_eq_of_lt_le (Nat.le_add_right _ _) (by rw [Nat.succ_mul]; omega)
      simp only [Function.comp_apply]
      rw [hdiv]

/-- C1 (amended with the no-overflow hypothesis `jobCount + groupSize ≤ 2^32`):
the per-group closures built by `Dispatch(jobCount, groupSize, f)` together
invoke `f` exactly once for each index in `[0, jobCount)` and for no other
index, each call receiving `groupIndex = index / groupSize`; each group passes
its indices in strictly increasing order; and `Dispatch(10, 3, f)` yields 4
groups of sizes 3,3,3,1 with `groupIndex` values 0,0,0,1,1,1,2,2,2,3. -/
theorem Dispatch_covers (j g : Nat) (hj : 0 < j) (hg : 0 < g) (hov : j + g ≤ U32) :
    (dispatchTrace j g).flatten
        = (List.range j).map (fun i => { jobIndex := i, groupIndex := i / g }) ∧
    (∀ l ∈ dispatchTrace j g, (l.map JobDispatchArgs.jobIndex).Pairwise (· < ·)) ∧
    (dispatchTrace 10 3).map List.length = [3, 3, 3, 1] ∧
    (dispatchTrace 10 3).flatten.map JobDispatchArgs.groupIndex
        = [0, 0, 0, 1, 1, 1, 2, 2, 2, 3] := by
  have hne : ¬(j = 0 ∨ g = 0) := by omega
  refine ⟨?_, ?_, by decide, by decide⟩
  · rw [dispatchTrace, if_neg hne, dispatchGroupCount_eq j g hj hg hov]
    have hbounds := dispatchGroupCount_bounds j g hj hg hov
    rw [dispatchGroupCount_eq j g hj hg hov] at hbounds
    have hmin : min (((j - 1) / g + 1) * g) j = j := Nat.min_eq_right hbounds.1
    rw [dispatch_join_aux j g hj hg hov ((j - 1) / g + 1) (Nat.le_refl _), hmin]
  · intro l hl
    rw [dispatchTrace, if_neg hne] at hl
    obtain ⟨k, hk, rfl⟩ := List.mem_map.1 hl
    unfold groupTrace
    rw [List.map_map]
    have hid : (JobDispatchArgs.jobIndex ∘
        fun i => ({ jobIndex := i, groupIndex := k } : JobDispatchArgs)) = fun i => i := rfl
    rw [hid, List.map_id']
    exact List.pairwise_lt_range' _ _

/-- Witness for C1 at `Dispatch(10, 3, f)`. -/
theorem Dispatch_covers_witness :
    0 < 10 ∧ 0 < 3 ∧ 10 + 3 ≤ U32 ∧
    (dispatchTrace 10 3).flatten
        = (List.range 10).map (fun i => { jobIndex := i, groupIndex := i / 3 }) :=
  ⟨by decide, by decide, by decide,
    (Dispatch_covers 10 3 (by decide) (by decide) (by decide)).1⟩

/-- C1 counterexample to the unamended claim: at `jobCount = 2`,
`groupSize = 4294967295 = 2^32 - 1` (both positive), the `uint32_t` sum
`jobCount + groupSize - 1` wraps to 0, so `groupCount = 0`, no group job is
built, and `f` is never invoked — index 0 is not passed to `f` even once. -/
theorem Dispatch_covers_cex :
    0 < 2 ∧ 0 < 4294967295 ∧ dispatchTrace 2 4294967295 = [] ∧
    ¬((dispatchTrace 2 4294967295).flatten
        = (List.range 2).map (fun i => { jobIndex := i, groupIndex := i / 4294967295 })) := by
  refine ⟨by decide, by decide, by decide, by decide⟩

/-- C5 (amended with the no-overflow hypothesis `jobCount + groupSize ≤ 2^32`):
`Dispatch` computes `groupCount` equal to the mathematical ceiling of
`jobCount / groupSize` (characterized by `j ≤ gc * g < j + g`), builds exactly
`groupCount` group jobs, and increments the submitted counter by exactly
`groupCount`. -/
theorem Dispatch_groupCount (j g : Nat) (hj : 0 < j) (hg : 0 < g) (hov : j + g ≤ U32) :
    j ≤ dispatchGroupCount j g * g ∧
    dispatchGroupCount j g * g < j + g ∧
    (dispatchTrace j g).length = dispatchGroupCount j g ∧
    ∀ s : Sys,
      (sysDispatch j g s).currentLabel = s.currentLabel + dispatchGroupCount j g ∧
      (sysDispatch j g s).toEnqueue = s.toEnqueue + dispatchGroupCount j g := by
  have hne : ¬(j = 0 ∨ g = 0) := by omega
  obtain ⟨hb1, hb2⟩ := dispatchGroupCount_bounds j g hj hg hov
  refine ⟨hb1, hb2, ?_, ?_⟩
  · rw [dispatchTrace, if_neg hne, List.length_map, List.length_range]
  · intro s
    rw [sysDispatch, if_neg hne]
    exact ⟨rfl, rfl⟩

/-- Witness for C5 at `Dispatch(10, 3, f)`: `groupCount = 4 = ceil(10 / 3)`. -/
theorem Dispatch_groupCount_witness :
    0 < 10 ∧ 0 < 3 ∧ 10 + 3 ≤ U32 ∧
    10 ≤ dispatchGroupCount 10 3 * 3 ∧ dispatchGroupCount 10 3 * 3 < 10 + 3 ∧
    (dispatchTrace 10 3).length = dispatchGroupCount 10 3 :=
  ⟨by decide, by decide, by decide,
    (Dispatch_groupCount 10 3 (by decide) (by decide) (by decide)).1,
    (Dispatch_groupCount 10 3 (by decide) (by decide) (by decide)).2.1,
    (Dispatch_groupCount 10 3 (by decide) (by decide) (by decide)).2.2.1⟩

/-- C5 counterexample to the unamended claim: at `jobCount = 3`,
`groupSize = 4294967295` the `uint32_t` computation yields `groupCount = 0`,
not the mathematical ceiling 1 (indeed `0 * groupSize < 3`). -/
theorem Dispatch_groupCount_cex :
    0 < 3 ∧ 0 < 4294967295 ∧ dispatchGroupCount 3 4294967295 = 0 ∧
    ¬(3 ≤ dispatchGroupCount 3 4294967295 * 4294967295) := by
  refine ⟨by decide, by decide, by decide, by decide⟩
